import Mathlib

/-!
Shallow embedding of the order-preserving variable-length integer codec in
src/src/lib.rs (Rust).  Machine integers are modelled as Nat (u8, u64, usize)
and Int (i64); `as u8` casts are `% 256`, u64 wrap-around is `% 2^64`.
Rust panics (Vec index out of bounds, the unimplemented! macro, and the
debug-profile checked-arithmetic panics on subtraction underflow and
oversized shifts) are modelled as `Except RErr` errors: the Rust functions
do not return a value on those paths.  (For the arithmetic underflows that
matter here, a release build also fails to return: the wrapped usize length
feeds a multi-exabyte Vec allocation which aborts, and the out-of-bounds
Vec writes panic in every profile.)
-/

/-- Failure modes of the embedded code: each constructor is one concrete
panic site of the Rust source.  `unimplementedPanic` is the unconditional
`unimplemented!()` macro in the decoders' reserved-marker branch,
`indexOOB` is the Vec bounds-check panic, `overflow` is the
checked-arithmetic panic (subtraction underflow / shift amount ≥ 64). -/
inductive RErr where
  | unimplementedPanic
  | indexOOB
  | overflow
deriving DecidableEq, Repr

/-- Reading `res[i]` from a Vec: panics when out of bounds. -/
def vecGet (res : List Nat) (i : Nat) : Except RErr Nat :=
  match res[i]? with
  | some b => .ok b
  | none => .error .indexOOB

/-- Writing `res[i] = b` to a Vec: panics when out of bounds. -/
def vecSet (res : List Nat) (i b : Nat) : Except RErr (List Nat) :=
  if i < res.length then .ok (res.set i b) else .error .indexOOB

/-- Model of `res[i] |= v` on a Vec: read-modify-write of one byte. -/
def vecOrSet (res : List Nat) (i v : Nat) : Except RErr (List Nat) :=
  match res[i]? with
  | some b => .ok (res.set i (b ||| v))
  | none => .error .indexOOB

/-- Checked unsigned subtraction (Rust debug builds panic on underflow). -/
def subChk (a b : Nat) : Except RErr Nat :=
  if b ≤ a then .ok (a - b) else .error .overflow

/-- Checked `u64 >> s` (Rust panics when the shift amount is ≥ 64). -/
def shrChk (x s : Nat) : Except RErr Nat :=
  if s < 64 then .ok (x >>> s) else .error .overflow

/-- Checked u64 addition (Rust debug builds panic on wrap-around). -/
def addChk64 (a b : Nat) : Except RErr Nat :=
  if a + b < 2 ^ 64 then .ok (a + b) else .error .overflow

/-- The 64-bit two's-complement bit pattern of an i64, as a Nat. -/
def toBits64 (x : Int) : Nat := (x.emod (2 ^ 64)).toNat

/-- Reinterpret a u64 bit pattern as an i64 (the source's pointer-aliasing
`unsafe` transmute of `&u64` to `&i64`). -/
def ofBits64 (p : Nat) : Int :=
  if p < 2 ^ 63 then (p : Int) else (p : Int) - 2 ^ 64

/-- Floor of log2, computed by structural recursion on a fuel bound (64 is
enough fuel for any 64-bit value, the only inputs that occur). -/
def log2fuel : Nat → Nat → Nat
  | 0, _ => 0
  | fuel + 1, x => if 2 ≤ x then log2fuel fuel (x / 2) + 1 else 0

/-- Embedding of `u64::leading_zeros` (number of leading zero bits of the 64-bit value). -/
def leading_zeros64 (x : Nat) : Nat :=
  if x = 0 then 64 else 63 - log2fuel 64 x

-- Constants from src/src/lib.rs lines 29-41.
def NEG_MULTI_MARKER : Nat := 0x10
def NEG_2BYTE_MARKER : Nat := 0x20
def NEG_1BYTE_MARKER : Nat := 0x40
def POS_1BYTE_MARKER : Nat := 0x80
def POS_2BYTE_MARKER : Nat := 0xc0
def POS_MULTI_MARKER : Nat := 0xe0

def NEG_1BYTE_MIN : Int := -(2 ^ 6)
def NEG_2BYTE_MIN : Int := -(2 ^ 13) + NEG_1BYTE_MIN
def POS_1BYTE_MAX : Nat := 2 ^ 6 - 1
def POS_2BYTE_MAX : Nat := 2 ^ 13 + POS_1BYTE_MAX

def INTPACK64_MAXSIZE : Nat := 8 + 1

/-- Embedding of `fn get_posint_bits(x: u64, start: usize, end: usize) -> u8`:
`((x & ((1u64 << start) - 1u64)) >> end) as u8`.  The mask
`& ((1 << start) - 1)` is `% 2^start`, the `as u8` cast is `% 256`. -/
def get_posint_bits (x start stop : Nat) : Nat :=
  ((x % 2 ^ start) >>> stop) % 256

/-- Embedding of `fn get_negint_bits(x: i64, start: usize, end: usize) -> u8`:
`((x & ((1i64 << start) - 1i64)) >> end) as u8`.  Bitwise AND of an i64
with the non-negative mask `2^start - 1` selects the low `start` bits of
the two's-complement pattern, i.e. `Int.emod x (2^start)`. -/
def get_negint_bits (x : Int) (start stop : Nat) : Nat :=
  (((x.emod (2 ^ start)).toNat) >>> stop) % 256

/-- Embedding of `fn lz_posint(x: u64) -> usize`. -/
def lz_posint (x : Nat) : Nat :=
  if x = 0 then 8 else (leading_zeros64 x) >>> 3

/-- Embedding of `fn lz_negint(x: i64) -> usize`.  The source reads
`if !x == 0 { 8 } else { (!x.leading_zeros() >> 3) as usize }`; by Rust
precedence the else branch is `(! (x.leading_zeros())) >> 3`, a u32
bitwise complement of the leading-zero count, not the leading-zero count
of `!x`. -/
def lz_negint (x : Int) : Nat :=
  if -x - 1 = 0 then 8
  else ((2 ^ 32 - 1) - leading_zeros64 (toBits64 x)) >>> 3

/-- Embedding of `fn size_posint(x: u64) -> usize` (`INTPACK64_MAXSIZE - lz_posint(x)`;
`lz_posint ≤ 8` so this usize subtraction never underflows). -/
def size_posint (x : Nat) : Nat := INTPACK64_MAXSIZE - lz_posint x

/-- Embedding of `fn size_negint(x: i64) -> usize` (`INTPACK64_MAXSIZE - lz_negint(x)`;
this usize subtraction underflows whenever `lz_negint x > 9`). -/
def size_negint (x : Int) : Except RErr Nat :=
  subChk INTPACK64_MAXSIZE (lz_negint x)

/-- Embedding of `fn size_uint(x: u64) -> usize`. -/
def size_uint (x : Nat) : Nat :=
  if x ≤ POS_1BYTE_MAX then 1
  else if x ≤ POS_2BYTE_MAX + 1 then 2
  else size_posint (x - (POS_2BYTE_MAX + 1))

/-- Embedding of `fn size_int(x: i64) -> usize`. -/
def size_int (x : Int) : Except RErr Nat :=
  if x < NEG_2BYTE_MIN then size_negint x
  else if x < NEG_1BYTE_MIN then .ok 2
  else if x < 0 then .ok 1
  else .ok (size_uint x.toNat)

/-- The packing loop shared by `pack_posint_into`'s body (lines 59-68):
`loop { res[index] = (x >> shift) as u8; shift -= 8; index += 1;
len -= 1; if len == 0 { break; } }`.  The byte store happens first (its
bounds-check panic fires before anything else), then `shift -= 8`
(underflows when `shift < 8`), then `len -= 1` (underflows when
`len = 0`), then the exit test. -/
def packPosLoop (x : Nat) : Nat → Nat → Nat → List Nat → Except RErr (List Nat)
  | len, shift, index, res =>
    match shrChk x shift with
    | .error e => .error e
    | .ok v =>
      match vecSet res index (v % 256) with
      | .error e => .error e
      | .ok res2 =>
        match subChk shift 8 with
        | .error e => .error e
        | .ok shift2 =>
          match len with
          | 0 => .error .overflow
          | 1 => .ok res2
          | n + 2 => packPosLoop x (n + 1) shift2 (index + 1) res2

/-- Embedding of `fn pack_posint_into(x: u64, res: &mut Vec<u8>)` (lines 51-70). -/
def pack_posint_into (x : Nat) (res : List Nat) : Except RErr (List Nat) :=
  let len := size_posint x
  let shift := (len - 1) <<< 3
  match vecOrSet res 0 (len % 16) with
  | .error e => .error e
  | .ok res2 => packPosLoop x len shift 1 res2

/-- Arithmetic right shift of an i64 then `as u8`: the low 8 bits of
`x >> shift` are bits `[shift, shift+8)` of the two's-complement pattern
(Rust panics when the shift amount is ≥ 64; every reachable `shift` here
is a multiple of 8, so `shift + 8 ≤ 64` whenever the shift succeeds). -/
def asrByteChk (x : Int) (shift : Nat) : Except RErr Nat :=
  if shift < 64 then .ok ((toBits64 x >>> shift) % 256) else .error .overflow

/-- The packing loop of `pack_negint_into` (lines 96-105), identical in
shape to `packPosLoop` but storing bytes of the i64 `x`. -/
def packNegLoop (x : Int) : Nat → Nat → Nat → List Nat → Except RErr (List Nat)
  | len, shift, index, res =>
    match asrByteChk x shift with
    | .error e => .error e
    | .ok v =>
      match vecSet res index v with
      | .error e => .error e
      | .ok res2 =>
        match subChk shift 8 with
        | .error e => .error e
        | .ok shift2 =>
          match len with
          | 0 => .error .overflow
          | 1 => .ok res2
          | n + 2 => packNegLoop x (n + 1) shift2 (index + 1) res2

/-- Embedding of `fn pack_negint_into(x: i64, res: &mut Vec<u8>)` (lines 87-107): note
the header nibble stored is `lz & 0xf` (the leading-ones byte count), not
the payload length. -/
def pack_negint_into (x : Int) (res : List Nat) : Except RErr (List Nat) :=
  let lz := lz_negint x
  match size_negint x with
  | .error e => .error e
  | .ok len =>
    let shift := (len - 1) <<< 3
    match vecOrSet res 0 (lz % 16) with
    | .error e => .error e
    | .ok res2 => packNegLoop x len shift 1 res2

/-- The unpacking loop shared by `unpack_posint_from` / `unpack_negint_from`
(lines 77-82 and 114-119): `loop { x = (x << 8) | res[index] as u64;
index += 1; len -= 1; if len == 0 { break; } }`.  The `res[index]` read
happens first (bounds-check panic), then `len -= 1` (u8 underflow when
`len = 0`), then the exit test.  `x << 8` on u64 silently discards high
bits, hence the `% 2^64`. -/
def unpackLoop (res : List Nat) : Nat → Nat → Nat → Except RErr Nat
  | 0, index, _ =>
    match vecGet res index with
    | .error e => .error e
    | .ok _ => .error .overflow
  | 1, index, x =>
    match vecGet res index with
    | .error e => .error e
    | .ok b => .ok (((x <<< 8) % 2 ^ 64) ||| b)
  | n + 2, index, x =>
    match vecGet res index with
    | .error e => .error e
    | .ok b => unpackLoop res (n + 1) (index + 1) (((x <<< 8) % 2 ^ 64) ||| b)

/-- Embedding of `fn unpack_posint_from(res: &Vec<u8>) -> u64` (lines 72-85). -/
def unpack_posint_from (res : List Nat) : Except RErr Nat :=
  match vecGet res 0 with
  | .error e => .error e
  | .ok b0 => unpackLoop res (b0 % 16) 1 0

/-- Embedding of `fn unpack_negint_from(res: &Vec<u8>) -> i64` (lines 109-122): reads
`size_of::<u64>() - (res[0] & 0xf)` = `8 - nibble` payload bytes (u8
subtraction, underflows when the nibble exceeds 8), starting the
accumulator at `u64::MAX` so the unread high bytes are all-one bits, and
reinterprets the final u64 pattern as i64. -/
def unpack_negint_from (res : List Nat) : Except RErr Int :=
  match vecGet res 0 with
  | .error e => .error e
  | .ok b0 =>
    match subChk 8 (b0 % 16) with
    | .error e => .error e
    | .ok len =>
      match unpackLoop res len 1 (2 ^ 64 - 1) with
      | .error e => .error e
      | .ok x => .ok (ofBits64 x)

/-- Embedding of `pub fn unpack_uint(res: &Vec<u8>) -> u64` (lines 124-147).  The final
else branch is the source's unconditional `unimplemented!()` panic. -/
def unpack_uint (res : List Nat) : Except RErr Nat :=
  match vecGet res 0 with
  | .error e => .error e
  | .ok b0 =>
    let marker := b0 &&& 0xf0
    if marker = POS_1BYTE_MARKER ∨ marker = POS_1BYTE_MARKER ||| 0x10 ∨
       marker = POS_1BYTE_MARKER ||| 0x20 ∨ marker = POS_1BYTE_MARKER ||| 0x30 then
      .ok (get_posint_bits b0 6 0)
    else if marker = POS_2BYTE_MARKER ∨ marker = POS_2BYTE_MARKER ||| 0x10 then
      match vecGet res 1 with
      | .error e => .error e
      | .ok b1 =>
        .ok ((((get_posint_bits b0 5 0) <<< 8) ||| b1) + (POS_1BYTE_MAX + 1))
    else if marker = POS_MULTI_MARKER then
      match unpack_posint_from res with
      | .error e => .error e
      | .ok x => addChk64 x (POS_2BYTE_MAX + 1)
    else .error .unimplementedPanic

/-- Embedding of `pub fn unpack_int(res: &Vec<u8>) -> i64` (lines 149-174). -/
def unpack_int (res : List Nat) : Except RErr Int :=
  match vecGet res 0 with
  | .error e => .error e
  | .ok b0 =>
    let marker := b0 &&& 0xf0
    if marker = NEG_MULTI_MARKER then
      unpack_negint_from res
    else if marker = NEG_2BYTE_MARKER ∨ marker = NEG_2BYTE_MARKER ||| 0x10 then
      match vecGet res 1 with
      | .error e => .error e
      | .ok b1 =>
        .ok (((((get_negint_bits (b0 : Int) 5 0) <<< 8) ||| b1 : Nat) : Int)
              + NEG_2BYTE_MIN)
    else if marker = NEG_1BYTE_MARKER ∨ marker = NEG_1BYTE_MARKER ||| 0x10 ∨
            marker = NEG_1BYTE_MARKER ||| 0x20 ∨ marker = NEG_1BYTE_MARKER ||| 0x30 then
      .ok (NEG_1BYTE_MIN + ((get_negint_bits (b0 : Int) 6 0 : Nat) : Int))
    else
      match unpack_uint res with
      | .error e => .error e
      | .ok y => .ok (ofBits64 y)

/-- Embedding of `pub fn pack_uint(x: u64) -> Vec<u8>` (lines 176-202). -/
def pack_uint (x : Nat) : Except RErr (List Nat) :=
  let len := size_uint x
  let res : List Nat := List.replicate len 0
  if x ≤ POS_1BYTE_MAX then
    vecSet res 0 (POS_1BYTE_MARKER ||| get_posint_bits x 6 0)
  else if x ≤ POS_2BYTE_MAX then
    let y := x - (POS_1BYTE_MAX + 1)
    match vecSet res 0 (POS_2BYTE_MARKER ||| get_posint_bits y 13 8) with
    | .error e => .error e
    | .ok res2 => vecSet res2 1 (get_posint_bits y 8 0)
  else if x = POS_2BYTE_MAX + 1 then
    match vecSet res 0 (POS_MULTI_MARKER ||| 0x1) with
    | .error e => .error e
    | .ok res2 => vecSet res2 1 0
  else
    let y := x - (POS_2BYTE_MAX + 1)
    match vecSet res 0 POS_MULTI_MARKER with
    | .error e => .error e
    | .ok res2 => pack_posint_into y res2

/-- Embedding of `pub fn pack_int(x: i64) -> Vec<u8>` (lines 204-231).  Non-negative
values delegate to `pack_uint` (`x as u64` of a non-negative i64 is
`x.toNat`); the negative in-branch offset subtractions cannot overflow. -/
def pack_int (x : Int) : Except RErr (List Nat) :=
  if 0 ≤ x then pack_uint x.toNat
  else
    match size_int x with
    | .error e => .error e
    | .ok len =>
      let res : List Nat := List.replicate len 0
      if x < NEG_2BYTE_MIN then
        match vecSet res 0 NEG_MULTI_MARKER with
        | .error e => .error e
        | .ok res2 => pack_negint_into x res2
      else if x < NEG_1BYTE_MIN then
        let y := x - NEG_2BYTE_MIN
        match vecSet res 0 (NEG_2BYTE_MARKER ||| get_negint_bits y 13 8) with
        | .error e => .error e
        | .ok res2 => vecSet res2 1 (get_negint_bits y 8 0)
      else if x < 0 then
        let y := x - NEG_1BYTE_MIN
        vecSet res 0 (NEG_1BYTE_MARKER ||| get_negint_bits y 6 0)
      else .ok res

/-- Big-endian value of a byte list (specification helper for the decode
loop: the value accumulated by repeated `x = x * 256 + b`). -/
def beVal (bs : List Nat) : Nat :=
  bs.foldl (fun a b => a * 256 + b) 0

/-!
Helper lemmas, followed by one theorem per claim of the specification
review (each claim theorem carries the claim id in its doc comment).
-/

/-- A bitwise or of operands with disjoint bit ranges is addition: when the
low `n` bits of `a` are zero and `b` fits in `n` bits, `a ||| b = a + b`. -/
theorem lor_disjoint_eq_add {n a b : Nat} (ha : a % 2 ^ n = 0) (hb : b < 2 ^ n) :
    a ||| b = a + b := by
  obtain ⟨c, hc⟩ : 2 ^ n ∣ a := Nat.dvd_of_mod_eq_zero ha
  subst hc
  have hshift : 2 ^ n * c = c <<< n := by rw [Nat.shiftLeft_eq, Nat.mul_comm]
  apply Nat.eq_of_testBit_eq
  intro i
  rw [Nat.testBit_lor]
  rcases Nat.lt_or_ge i n with h | h
  · have hA : (2 ^ n * c).testBit i = false := by
      rw [hshift, Nat.testBit_shiftLeft]
      simp [Nat.not_le.mpr h]
    have hsum : (2 ^ n * c + b).testBit i = b.testBit i := by
      rw [Nat.testBit_to_div_mod, Nat.testBit_to_div_mod]
      have hpow : (2 : Nat) ^ n = 2 ^ i * 2 ^ (n - i) := by
        rw [← pow_add]
        congr 1
        omega
      have hdiv : (2 ^ n * c + b) / 2 ^ i = 2 ^ (n - i) * c + b / 2 ^ i := by
        rw [hpow, Nat.mul_assoc, Nat.mul_add_div (Nat.pos_pow_of_pos i (by norm_num))]
      rw [hdiv]
      have heven : 2 ^ (n - i) * c % 2 = 0 := by
        have h2p : (2 : Nat) ^ (n - i) = 2 * 2 ^ (n - i - 1) := by
          rw [← pow_succ']
          congr 1
          omega
        rw [h2p, Nat.mul_assoc]
        exact Nat.mul_mod_right 2 _
      rw [decide_eq_decide]
      omega
    rw [hA, hsum, Bool.false_or]
  · have hB : b.testBit i = false :=
      Nat.testBit_eq_false_of_lt
        (lt_of_lt_of_le hb (Nat.pow_le_pow_right (by norm_num) h))
    have hsum : (2 ^ n * c + b).testBit i = (2 ^ n * c).testBit i := by
      rw [Nat.testBit_to_div_mod, Nat.testBit_to_div_mod]
      have hpow : (2 : Nat) ^ i = 2 ^ n * 2 ^ (i - n) := by
        rw [← pow_add]
        congr 1
        omega
      have h1 : (2 ^ n * c + b) / 2 ^ i = c / 2 ^ (i - n) := by
        rw [hpow, ← Nat.div_div_eq_div_mul]
        have : (2 ^ n * c + b) / 2 ^ n = c := by
          rw [Nat.mul_add_div (Nat.pos_pow_of_pos n (by norm_num)),
              Nat.div_eq_of_lt hb, Nat.add_zero]
        rw [this]
      have h2 : 2 ^ n * c / 2 ^ i = c / 2 ^ (i - n) := by
        rw [hpow, ← Nat.div_div_eq_div_mul, Nat.mul_div_cancel_left _ (Nat.pos_pow_of_pos n (by norm_num))]
      rw [h1, h2]
    rw [hB, hsum, Bool.or_false]

theorem beVal_foldl (bs : List Nat) :
    ∀ a : Nat, bs.foldl (fun a b => a * 256 + b) a = a * 256 ^ bs.length + beVal bs := by
  induction bs with
  | nil => intro a; simp [beVal]
  | cons b bs ih =>
    intro a
    have hb : beVal (b :: bs) = b * 256 ^ bs.length + beVal bs := by
      show List.foldl (fun a b => a * 256 + b) (0 * 256 + b) bs = _
      rw [ih (0 * 256 + b)]
      ring_nf
    simp only [List.foldl_cons, List.length_cons]
    rw [ih (a * 256 + b), hb]
    ring

theorem beVal_lt (bs : List Nat) (h : ∀ b ∈ bs, b < 256) : beVal bs < 256 ^ bs.length := by
  induction bs with
  | nil => simp [beVal]
  | cons b bs ih =>
    have hb : beVal (b :: bs) = b * 256 ^ bs.length + beVal bs := by
      show List.foldl (fun a b => a * 256 + b) (0 * 256 + b) bs = _
      rw [beVal_foldl bs (0 * 256 + b)]
      ring_nf
    have h1 : b < 256 := h b (by simp)
    have h2 : beVal bs < 256 ^ bs.length := ih (fun x hx => h x (by simp [hx]))
    rw [hb]
    simp only [List.length_cons]
    calc b * 256 ^ bs.length + beVal bs
        < b * 256 ^ bs.length + 256 ^ bs.length := by omega
      _ = (b + 1) * 256 ^ bs.length := by ring
      _ ≤ 256 * 256 ^ bs.length := by
          exact Nat.mul_le_mul_right _ (by omega)
      _ = 256 ^ (bs.length + 1) := by ring

theorem beVal_cons (b : Nat) (bs : List Nat) :
    beVal (b :: bs) = b * 256 ^ bs.length + beVal bs := by
  show List.foldl (fun a b => a * 256 + b) (0 * 256 + b) bs = _
  rw [beVal_foldl bs (0 * 256 + b)]
  ring_nf

theorem step_lor_eq (x b : Nat) (hb : b < 256) :
    ((x <<< 8) % 2 ^ 64) ||| b = (x * 256 + b) % 2 ^ 64 := by
  have h1 : (x <<< 8) % 2 ^ 64 = 256 * (x % 2 ^ 56) := by
    rw [Nat.shiftLeft_eq]
    rw [show (2 : Nat) ^ 64 = 2 ^ 8 * 2 ^ 56 by norm_num,
        show (2 : Nat) ^ 8 = 256 by norm_num,
        Nat.mul_comm x 256, Nat.mul_mod_mul_left]
  have h2 : (256 * (x % 2 ^ 56)) % 2 ^ 8 = 0 := by
    rw [show (2 : Nat) ^ 8 = 256 by norm_num]
    exact Nat.mul_mod_right 256 _
  rw [h1, lor_disjoint_eq_add h2 (by omega : b < 2 ^ 8)]
  omega

theorem unpackLoop_append (bs : List Nat) :
    ∀ (pre junk : List Nat) (x : Nat), bs ≠ [] → (∀ b ∈ bs, b < 256) →
    unpackLoop (pre ++ (bs ++ junk)) bs.length pre.length x =
      .ok ((x * 256 ^ bs.length + beVal bs) % 2 ^ 64) := by
  induction bs with
  | nil => intro pre junk x hne; exact absurd rfl hne
  | cons b bs ih =>
    intro pre junk x hne hlt
    have hb : b < 256 := hlt b (by simp)
    cases bs with
    | nil =>
      have hget : (pre ++ (b :: junk))[pre.length]? = some b := by
        rw [List.getElem?_append_right (le_refl _)]
        simp
      show unpackLoop (pre ++ (b :: junk)) 1 pre.length x = _
      rw [unpackLoop]
      simp only [vecGet, hget]
      rw [step_lor_eq x b hb]
      have hbv : beVal [b] = b := by simp [beVal]
      rw [hbv]
      norm_num
    | cons b2 bs2 =>
      have hget : (pre ++ (b :: b2 :: bs2 ++ junk))[pre.length]? = some b := by
        rw [List.getElem?_append_right (le_refl _)]
        simp
      show unpackLoop (pre ++ (b :: b2 :: bs2 ++ junk)) (bs2.length + 2) pre.length x = _
      rw [unpackLoop]
      simp only [vecGet, hget]
      have hres : pre ++ (b :: b2 :: bs2 ++ junk) = (pre ++ [b]) ++ ((b2 :: bs2) ++ junk) := by
        simp
      have hidx : pre.length + 1 = (pre ++ [b]).length := by simp
      have hlen : bs2.length + 1 = (b2 :: bs2).length := by simp
      rw [hres, hidx, hlen,
          ih (pre ++ [b]) junk _ (by simp) (fun y hy => hlt y (by simp [hy])),
          step_lor_eq x b hb]
      have heq1 :
          (((x * 256 + b) % 2 ^ 64) * 256 ^ (b2 :: bs2).length + beVal (b2 :: bs2)) % 2 ^ 64 =
          ((x * 256 + b) * 256 ^ (b2 :: bs2).length + beVal (b2 :: bs2)) % 2 ^ 64 :=
        ((Nat.mod_modEq (x * 256 + b) (2 ^ 64)).mul_right _).add_right _
      rw [heq1]
      congr 1
      rw [beVal_cons b (b2 :: bs2)]
      simp only [List.length_cons]
      ring_nf

/-- General form of the negative-multi decode (helper for the claim C6
theorem): any header byte with high nibble 0x1 and low nibble `L` in 1..7
makes `unpack_int` read `8 - L` payload bytes big-endian over an all-ones
accumulator and reinterpret the result as i64. -/
theorem c6_aux (h0 L : Nat) (payload junk : List Nat)
    (hm : h0 &&& 0xf0 = 0x10) (hn : h0 % 16 = L) (h1 : 1 ≤ L) (h2 : L ≤ 7)
    (hlen : payload.length = 8 - L) (hb : ∀ b ∈ payload, b < 256) :
    unpack_int (h0 :: (payload ++ junk)) =
      .ok ((beVal payload : Int) - 2 ^ (8 * (8 - L))) := by
  have hC : unpack_int (h0 :: (payload ++ junk)) =
      unpack_negint_from (h0 :: (payload ++ junk)) := by
    simp [unpack_int, vecGet, hm, NEG_MULTI_MARKER]
  rw [hC]
  have hD : unpack_negint_from (h0 :: (payload ++ junk)) =
      match unpackLoop (h0 :: (payload ++ junk)) (8 - L) 1 (2 ^ 64 - 1) with
      | .error e => .error e
      | .ok x => .ok (ofBits64 x) := by
    simp only [unpack_negint_from, vecGet, List.getElem?_cons_zero, hn, subChk,
               if_pos (show L ≤ 8 by omega)]
  rw [hD]
  have hres : h0 :: (payload ++ junk) = [h0] ++ (payload ++ junk) := rfl
  have hloop : unpackLoop (h0 :: (payload ++ junk)) (8 - L) 1 (2 ^ 64 - 1) =
      .ok (((2 ^ 64 - 1) * 256 ^ payload.length + beVal payload) % 2 ^ 64) := by
    rw [hres, show (8 : Nat) - L = payload.length from hlen.symm,
        show (1 : Nat) = [h0].length from rfl]
    exact unpackLoop_append payload [h0] junk (2 ^ 64 - 1)
      (by intro hcon; rw [hcon] at hlen; simp at hlen; omega) hb
  rw [hloop]
  have hp : beVal payload < 256 ^ payload.length := beVal_lt payload hb
  have hn7 : payload.length ≤ 7 := by omega
  have hP2 : (256 : Nat) ^ payload.length ≤ 72057594037927936 := by
    calc (256 : Nat) ^ payload.length ≤ 256 ^ 7 :=
          Nat.pow_le_pow_right (by norm_num) hn7
      _ = 72057594037927936 := by norm_num
  have hP1 : 1 ≤ (256 : Nat) ^ payload.length := Nat.one_le_pow _ _ (by norm_num)
  have hmod : ((2 ^ 64 - 1) * 256 ^ payload.length + beVal payload) % 2 ^ 64 =
      2 ^ 64 - 256 ^ payload.length + beVal payload := by omega
  rw [hmod]
  have hge : ¬(2 ^ 64 - 256 ^ payload.length + beVal payload < 2 ^ 63) := by omega
  simp only [ofBits64, if_neg hge]
  have hcast : ((2 ^ 64 - 256 ^ payload.length + beVal payload : Nat) : Int) =
      (2 ^ 64 : Int) - ((256 ^ payload.length : Nat) : Int) + (beVal payload : Int) := by
    omega
  rw [hcast]
  have hpow : ((256 ^ payload.length : Nat) : Int) = (2 : Int) ^ (8 * (8 - L)) := by
    push_cast
    rw [hlen, pow_mul]
    norm_num
  rw [hpow]
  ring_nf


/-- Claim C1 (code bug): order preservation over all of u64 fails because
the encoder is not total: `pack_uint 8256` returns the buffer
`[0xE1, 0x00]`, but `pack_uint 8257` hits the Vec index-out-of-bounds
panic (the multi-byte packing loop writes one byte past the allocated
buffer), so for the pair `(8256, 8257)` no second byte sequence exists to
compare lexicographically. -/
theorem c1_order_preservation_fails_above_8256 :
    pack_uint 8256 = .ok [0xE1, 0x00] ∧ pack_uint 8257 = .error .indexOOB :=
  ⟨rfl, rfl⟩

/-- Claim C2 (code bug): the unsigned round trip
`unpack_uint (pack_uint x) = x` fails at `x = 8257`: `pack_uint 8257`
panics (index out of bounds) instead of producing a buffer, so the
composed round trip errors rather than returning `8257`. -/
theorem c2_uint_round_trip_fails_at_8257 :
    (pack_uint 8257).bind unpack_uint = .error .indexOOB :=
  rfl

/-- Claim C3 (code bug): the signed round trip `unpack_int (pack_int x) = x`
fails at `x = -8257`: `lz_negint (-8257)` evaluates to 536870911 (the
operator-precedence slip complements the leading-zero count instead of
counting leading zeros of the complement), so `size_negint`'s usize
subtraction underflows and `pack_int` panics instead of producing a
buffer. -/
theorem c3_int_round_trip_fails_at_neg8257 :
    (pack_int (-8257)).bind unpack_int = .error .overflow :=
  rfl

/-- Claim C4 (code bug): encoding is not total: `pack_uint 65536` hits the
Vec index-out-of-bounds panic in the multi-byte packing loop, and
`pack_int (-65536)` hits the usize subtraction underflow in
`size_negint`; neither encoder returns a byte buffer on these inputs. -/
theorem c4_encoding_not_total :
    pack_uint 65536 = .error .indexOOB ∧ pack_int (-65536) = .error .overflow :=
  ⟨rfl, rfl⟩

/-- Claim C5 (code bug): on malformed input the decoders panic instead of
returning typed error values: a reserved header (0x00-0x0F or 0xF0-0xFF)
reaches the unconditional `unimplemented!()` macro, and a buffer shorter
than its header implies (such as `[0xE1]`, which claims one payload byte)
reaches the Vec index-out-of-bounds panic; no `InvalidMarker` or
`Truncated` result value exists anywhere in the code. -/
theorem c5_decoders_panic_on_malformed_input :
    unpack_uint [0x00] = .error .unimplementedPanic ∧
    unpack_int [0x00] = .error .unimplementedPanic ∧
    unpack_uint [0xF3] = .error .unimplementedPanic ∧
    unpack_uint [0xE1] = .error .indexOOB ∧
    unpack_int [0xE1] = .error .indexOOB :=
  ⟨rfl, rfl, rfl, rfl, rfl⟩

/-- Claim C6 counterexample: for the buffer `[0x17, 0xFE, 0, 0, 0, 0, 0, 0]`
(header nibble L = 7 followed by 7 payload bytes) the claim predicts that
`unpack_int` reads all 7 payload bytes and returns the sign extension of
`0xFE000000000000`, which is `-2^49 = -562949953421312`; the code reads
`8 - 7 = 1` payload byte and returns `-2`. -/
theorem c6_counterexample :
    unpack_int [0x17, 0xFE, 0x00, 0x00, 0x00, 0x00, 0x00, 0x00] = .ok (-2) ∧
    (-2 : Int) ≠ -562949953421312 :=
  ⟨rfl, by decide⟩

/-- Claim C6 (amended): for every L in 1..7 and every buffer whose first
byte is `0x10 ||| L` followed by at least `8 - L` payload bytes,
`unpack_int` reads exactly `8 - L` big-endian payload bytes (the length
nibble stores the count of omitted all-ones sign bytes, so the payload
length is `8 - L`, not `L`), fills the unread high-order bytes with
all-one bits, and returns the resulting two's-complement bit pattern
reinterpreted as an i64; bytes beyond the first `8 - L` payload bytes are
ignored. -/
theorem c6_neg_multi_decode (L : Nat) (payload junk : List Nat)
    (h1 : 1 ≤ L) (h2 : L ≤ 7) (hlen : payload.length = 8 - L)
    (hb : ∀ b ∈ payload, b < 256) :
    unpack_int ((NEG_MULTI_MARKER ||| L) :: (payload ++ junk)) =
      .ok ((beVal payload : Int) - 2 ^ (8 * (8 - L))) := by
  interval_cases L <;>
    exact c6_aux _ _ payload junk (by decide) (by decide) (by decide) (by decide)
      hlen hb

/-- Claim C6 witness: the amended theorem instantiated at L = 7 with one
payload byte 0xFE and a trailing ignored byte: the decoder reads the one
payload byte and sign-extends, giving `0xFE - 0x100 = -2`. -/
theorem c6_neg_multi_decode_witness :
    unpack_int [0x17, 0xFE, 0x33] = .ok (-2) := by
  have h := c6_neg_multi_decode 7 [0xFE] [0x33] (by decide) (by decide)
    (by decide) (by decide)
  simpa [beVal] using h

/-- Claim C7 (confirmed): the boundary literal encodings
`pack_uint 0 = [0x80]`, `pack_uint 63 = [0xBF]`,
`pack_uint 64 = [0xC0, 0x00]`, `pack_uint 8255 = [0xDF, 0xFF]`,
`pack_uint 8256 = [0xE1, 0x00]`, `pack_int (-1) = [0x7F]`,
`pack_int (-64) = [0x40]`, `pack_int (-65) = [0x3F, 0xFF]`, and
`pack_int (-8256) = [0x20, 0x00]` all hold. -/
theorem c7_boundary_literals :
    pack_uint 0 = .ok [0x80] ∧ pack_uint 63 = .ok [0xBF] ∧
    pack_uint 64 = .ok [0xC0, 0x00] ∧ pack_uint 8255 = .ok [0xDF, 0xFF] ∧
    pack_uint 8256 = .ok [0xE1, 0x00] ∧ pack_int (-1) = .ok [0x7F] ∧
    pack_int (-64) = .ok [0x40] ∧ pack_int (-65) = .ok [0x3F, 0xFF] ∧
    pack_int (-8256) = .ok [0x20, 0x00] :=
  ⟨rfl, rfl, rfl, rfl, rfl, rfl, rfl, rfl, rfl⟩

/-- Claim C8 (code bug): the minimal-length formula cannot hold for
`x > 8256` because no buffer is returned there: `size_uint 9000 = 3` does
match the claimed formula `1 + L` (for `x = 9000`, `y = 744` needs
`L = 2` payload bytes), but `pack_uint 9000` panics with a Vec
index-out-of-bounds before returning the allocated buffer. -/
theorem c8_minimal_length_fails_in_multi_range :
    pack_uint 9000 = .error .indexOOB ∧ size_uint 9000 = 3 :=
  ⟨rfl, rfl⟩

/-- Claim C9 (confirmed): for every non-negative i64 value `x`, `pack_int x`
returns byte-for-byte the same result as `pack_uint` applied to `x` cast
to u64 (the source short-circuits `x >= 0` to `pack_uint(x as u64)`). -/
theorem c9_pack_int_delegates_nonneg (x : Int) (h : 0 ≤ x) :
    pack_int x = pack_uint x.toNat := by
  simp [pack_int, h]

/-- Claim C9 witness: the delegation theorem applied at the concrete
non-negative input 100. -/
theorem c9_pack_int_delegates_nonneg_witness :
    pack_int 100 = pack_uint ((100 : Int)).toNat :=
  c9_pack_int_delegates_nonneg 100 (by decide)

/-- Claim C10 (confirmed): `unpack_uint [0xE0]` (positive multi-byte marker
with length nibble 0) does not return a u64: the payload loop reads
`res[1]` before testing the already-zero count, and that read is out of
bounds for the one-byte buffer, so the embedded decoder takes the
partiality branch instead of producing a number. -/
theorem c10_unpack_uint_e0_no_value :
    unpack_uint [0xE0] = .error .indexOOB :=
  rfl
